import Mathlib

/-!
A shallow embedding of the state-management engine of `sdk/python/feast/registry.py`:
the registry snapshot (`RegistryProto`), the CRUD operations (`apply_entity`,
`apply_feature_service`, `apply_feature_view`, the deletes), the materialization
tracker (`apply_materialization`), the cache/refresh controller
(`_get_registry_proto`, `_prepare_registry_for_changes`), the diff engine
(`Registry.diff_between`) and the projection (`to_dict`).

Python protobuf messages become Lean structures; in-place mutation of the cached
proto becomes explicit state passing; raised exceptions become an `Option RegErr`
result component (the state component is the cached proto after the call, which
Python leaves untouched when the exception is raised before any mutation).
Timestamps are modelled as natural numbers.
-/

namespace Feast

/-- `REGISTRY_SCHEMA_VERSION = "1"` from registry.py. -/
def REGISTRY_SCHEMA_VERSION : String := "1"

/-- The `spec` sub-message common to all catalog-object protos: a name, a project,
and the remaining spec payload abstracted as a list of (field name, value) pairs. -/
structure FcoSpec where
  name : String
  project : String
  fields : List (String × String)
deriving DecidableEq, Repr

/-- A catalog-object proto (entity / feature service / feature table): carries its `spec`. -/
structure FcoProto where
  spec : FcoSpec
deriving DecidableEq, Repr

/-- The closed set of feature-view variant types: `FeatureView`, `OnDemandFeatureView`,
`RequestFeatureView` (the Python `isinstance` dispatch in `apply_feature_view`). -/
inductive FVVariant
  | regular
  | onDemand
  | request
deriving DecidableEq, Repr, Fintype

/-- A feature-view proto: `spec` plus the meta fields `created_timestamp` and
`materialization_intervals`. -/
structure FVProto where
  spec : FcoSpec
  created_timestamp : Option Nat
  materialization_intervals : List (Nat × Nat)
deriving DecidableEq, Repr

/-- A Python-level feature-view object (argument of `apply_feature_view`): like a
proto but not yet stamped with a project, and tagged with its variant type
(`type(feature_view)` in Python). -/
structure FVObj where
  spec : FcoSpec
  created_timestamp : Option Nat
  materialization_intervals : List (Nat × Nat)
  variant : FVVariant
deriving DecidableEq, Repr

/-- The registry snapshot (`RegistryProto`): schema-version tag plus the object
collections, in the field order of the proto used by registry.py. -/
structure RegistryProto where
  registry_schema_version : String
  entities : List FcoProto
  feature_views : List FVProto
  feature_tables : List FcoProto
  on_demand_feature_views : List FVProto
  request_feature_views : List FVProto
  feature_services : List FcoProto
deriving DecidableEq, Repr

/-- The exceptions raised by the registry operations modelled here. -/
inductive RegErr
  | entityNotFoundException
  | featureViewNotFoundException
  | featureServiceNotFoundException
  | conflictingFeatureViewNames
deriving DecidableEq, Repr

/-- `RegistryProto()` followed by `registry_proto.registry_schema_version = REGISTRY_SCHEMA_VERSION`:
the empty snapshot stamped with the current schema version. -/
def emptyRegistryProto : RegistryProto :=
  { registry_schema_version := REGISTRY_SCHEMA_VERSION
    entities := []
    feature_views := []
    feature_tables := []
    on_demand_feature_views := []
    request_feature_views := []
    feature_services := [] }

/-- `proto.spec.project = project`: stamp the project onto an object proto. -/
def stampProject (o : FcoProto) (project : String) : FcoProto :=
  { o with spec := { o.spec with project := project } }

/-- The `for idx, x in enumerate(coll): if match: del coll[idx]; break` pattern:
remove the first element with the given (name, project), reporting `none` when no
element matches (the loop falls through). Generic over the collection's element
type via the two field projections. -/
def delFirstNP (nm pj : α → String) (name project : String) : List α → Option (List α)
  | [] => none
  | x :: xs =>
    if nm x = name ∧ pj x = project then some xs
    else (delFirstNP nm pj name project xs).map (x :: ·)

/-- The `for idx, x in enumerate(coll): if p(x): del coll[idx]` pattern WITHOUT a
`break` (as in `apply_feature_service`): Python's enumerate over the list being
mutated skips the element that shifts into the deleted slot, so after a deletion
the immediately following element is kept unexamined. -/
def pyDelMatches (p : α → Prop) [DecidablePred p] : List α → List α
  | [] => []
  | x :: xs =>
    if p x then
      match xs with
      | [] => []
      | y :: ys => y :: pyDelMatches p ys
    else x :: pyDelMatches p xs

/-- `Registry.apply_entity`: stamp the project, delete the first existing entry with
the same (name, project) if any, and append the incoming proto. There is no
identity check: the delete-and-append always happens. -/
def applyEntity (entity : FcoProto) (project : String) (r : RegistryProto) : RegistryProto :=
  let entity_proto := stampProject entity project
  let ents :=
    match delFirstNP (fun x => x.spec.name) (fun x => x.spec.project)
        entity_proto.spec.name project r.entities with
    | some l => l
    | none => r.entities
  { r with entities := ents ++ [entity_proto] }

/-- `Registry.apply_feature_service`: stamp the project, run the (break-less)
deletion loop over `feature_services`, and append the incoming proto. -/
def applyFeatureService (feature_service : FcoProto) (project : String) (r : RegistryProto) :
    RegistryProto :=
  let fsp := stampProject feature_service project
  let l := pyDelMatches
    (fun x => x.spec.name = fsp.spec.name ∧ x.spec.project = project) r.feature_services
  { r with feature_services := l ++ [fsp] }

/-- The semantic equality test `feature_view.__class__.from_proto(existing) == feature_view`
of `apply_feature_view`: `BaseFeatureView.__eq__` compares the name and the spec
payload, but not the project stamp, the created timestamp or the materialization
intervals (those live in the proto meta). -/
def FVSemEq (a b : FVProto) : Prop :=
  a.spec.name = b.spec.name ∧ a.spec.fields = b.spec.fields

instance (a b : FVProto) : Decidable (FVSemEq a b) :=
  inferInstanceAs (Decidable (_ ∧ _))

/-- The `cached_registry_proto.{feature_views, on_demand_feature_views, request_feature_views}`
collection selected by the `isinstance` dispatch of `apply_feature_view`. -/
def getFvColl (r : RegistryProto) : FVVariant → List FVProto
  | .regular => r.feature_views
  | .onDemand => r.on_demand_feature_views
  | .request => r.request_feature_views

/-- Write back the variant's collection. -/
def setFvColl (r : RegistryProto) : FVVariant → List FVProto → RegistryProto
  | .regular, l => { r with feature_views := l }
  | .onDemand, l => { r with on_demand_feature_views := l }
  | .request, l => { r with request_feature_views := l }

/-- `Registry._existing_feature_view_names_to_fvs` followed by the lookup in
`_check_conflicting_feature_view_names`: the merged dict `{**odfvs, **fvs, **request_fvs}`
maps each name present in any of the three variant collections to the object from
the LAST collection in the merge that contains the name (request feature views
override regular feature views, which override on-demand feature views); projects
are ignored entirely. Returns the variant of the object the name maps to. -/
def mergedVariantLookup (r : RegistryProto) (n : String) : Option FVVariant :=
  if ∃ fv ∈ r.request_feature_views, fv.spec.name = n then some .request
  else if ∃ fv ∈ r.feature_views, fv.spec.name = n then some .regular
  else if ∃ fv ∈ r.on_demand_feature_views, fv.spec.name = n then some .onDemand
  else none

/-- `Registry._check_conflicting_feature_view_names`: true exactly when the incoming
name is in the merged name map and the stored object's type is not the incoming
object's proto class (so `ConflictingFeatureViewNames` is raised). -/
def checkConflictingFeatureViewNames (fv : FVObj) (r : RegistryProto) : Bool :=
  match mergedVariantLookup r fv.spec.name with
  | some v => decide (v ≠ fv.variant)
  | none => false

/-- `feature_view.created_timestamp = datetime.now()` (when unset) followed by
`feature_view.to_proto()` and the project stamp. -/
def fvToProto (fv : FVObj) (project : String) (now : Nat) : FVProto :=
  { spec := { fv.spec with project := project }
    created_timestamp := some (fv.created_timestamp.getD now)
    materialization_intervals := fv.materialization_intervals }

/-- The main loop of `apply_feature_view` over the variant's collection: at the
first (name, project) match, either return from the whole method without touching
the collection (`none` result; the stored object is semantically equal to the
incoming one) or delete the match, break, and append; with no match, append. -/
def applyFvToColl (fvp : FVProto) (project : String) : List FVProto → Option (List FVProto)
  | [] => some [fvp]
  | x :: xs =>
    if x.spec.name = fvp.spec.name ∧ x.spec.project = project then
      if FVSemEq x fvp then none
      else some (xs ++ [fvp])
    else (applyFvToColl fvp project xs).map (x :: ·)

/-- `Registry.apply_feature_view`: stamp timestamp and project, check the
cross-variant name-conflict rule (raising `ConflictingFeatureViewNames` before any
mutation), then run the apply loop on the variant's own collection. The state
component of the result is the cached proto after the call. -/
def applyFeatureView (fv : FVObj) (project : String) (now : Nat) (r : RegistryProto) :
    RegistryProto × Option RegErr :=
  let fvp := fvToProto fv project now
  if checkConflictingFeatureViewNames fv r then
    (r, some .conflictingFeatureViewNames)
  else
    match applyFvToColl fvp project (getFvColl r fv.variant) with
    | none => (r, none)
    | some l => (setFvColl r fv.variant l, none)

/-- The loop of `apply_materialization` over `feature_views`: at the first
(name, project) match, append the (start, end) interval to the stored view's
materialization intervals, delete the old entry and append the updated proto at
the end of the collection; `none` when no match (the method falls through to
`raise FeatureViewNotFoundException`). -/
def applyMatToColl (name project : String) (start_date end_date : Nat) :
    List FVProto → Option (List FVProto)
  | [] => none
  | x :: xs =>
    if x.spec.name = name ∧ x.spec.project = project then
      some (xs ++ [{ x with
        materialization_intervals := x.materialization_intervals ++ [(start_date, end_date)] }])
    else (applyMatToColl name project start_date end_date xs).map (x :: ·)

/-- `Registry.apply_materialization`. -/
def applyMaterialization (name project : String) (start_date end_date : Nat)
    (r : RegistryProto) : RegistryProto × Option RegErr :=
  match applyMatToColl name project start_date end_date r.feature_views with
  | some l => ({ r with feature_views := l }, none)
  | none => (r, some .featureViewNotFoundException)

/-- `Registry.delete_entity`: remove the first (name, project) match or raise
`EntityNotFoundException`. -/
def deleteEntity (name project : String) (r : RegistryProto) : RegistryProto × Option RegErr :=
  match delFirstNP (fun x => x.spec.name) (fun x => x.spec.project) name project r.entities with
  | some l => ({ r with entities := l }, none)
  | none => (r, some .entityNotFoundException)

/-- `Registry.delete_feature_service`. -/
def deleteFeatureService (name project : String) (r : RegistryProto) :
    RegistryProto × Option RegErr :=
  match delFirstNP (fun x => x.spec.name) (fun x => x.spec.project) name project
      r.feature_services with
  | some l => ({ r with feature_services := l }, none)
  | none => (r, some .featureServiceNotFoundException)

/-- `Registry.delete_feature_view`: search `feature_views` first, then
`request_feature_views`; raise `FeatureViewNotFoundException` only when both
searches fail. -/
def deleteFeatureView (name project : String) (r : RegistryProto) :
    RegistryProto × Option RegErr :=
  match delFirstNP (fun x => x.spec.name) (fun x => x.spec.project) name project
      r.feature_views with
  | some l => ({ r with feature_views := l }, none)
  | none =>
    match delFirstNP (fun x => x.spec.name) (fun x => x.spec.project) name project
        r.request_feature_views with
    | some l => ({ r with request_feature_views := l }, none)
    | none => (r, some .featureViewNotFoundException)

/-! ### Cache and refresh controller -/

/-- The cache fields of a `Registry` instance: the optional cached snapshot, its
creation time, and the TTL in seconds (0 = never expires). -/
structure RegistryState where
  cached_registry_proto : Option RegistryProto
  cached_registry_proto_created : Option Nat
  cached_registry_proto_ttl : Nat
deriving DecidableEq, Repr

/-- The `expired` test of `_get_registry_proto`:
`(cached is None or created is None) or (ttl > 0 and now > created + ttl)`. -/
def cacheExpired (st : RegistryState) (now : Nat) : Bool :=
  match st.cached_registry_proto, st.cached_registry_proto_created with
  | some _, some created =>
      decide (0 < st.cached_registry_proto_ttl) &&
      decide (created + st.cached_registry_proto_ttl < now)
  | _, _ => true

/-- `Registry._get_registry_proto`. The backend store is modelled by its `load`
result: `some proto`, or `none` for a `FileNotFoundError` (the registry blob does
not exist). The result carries the returned proto, the registry state after the
call, and whether a backend load happened; `.error ()` is the propagated
`FileNotFoundError`, after which Python leaves the cache fields untouched. -/
def getRegistryProto (store : Option RegistryProto) (now : Nat) (allow_cache : Bool)
    (st : RegistryState) : Except Unit (RegistryProto × RegistryState × Bool) :=
  if allow_cache && !cacheExpired st now then
    match st.cached_registry_proto with
    | some p => .ok (p, st, false)
    | none => .error ()
  else
    match store with
    | some p =>
        .ok (p, { st with cached_registry_proto := some p
                          cached_registry_proto_created := some now }, true)
    | none => .error ()

/-- `Registry._prepare_registry_for_changes`: try a cached read; on
`FileNotFoundError`, synthesize an empty proto stamped with the current schema
version, install it as the cache, and return it. -/
def prepareRegistryForChanges (store : Option RegistryProto) (now : Nat)
    (st : RegistryState) : RegistryProto × RegistryState :=
  match getRegistryProto store now true st with
  | .ok (p, st1, _) => (p, st1)
  | .error _ =>
      (emptyRegistryProto,
       { st with cached_registry_proto := some emptyRegistryProto
                 cached_registry_proto_created := some now })

/-- A sequence of `get(allowCache=true)` calls at the given times against a fixed
backend-store content, counting how many backend loads happen. -/
def runCachedGets (store : Option RegistryProto) (times : List Nat) (st : RegistryState) :
    RegistryState × Nat :=
  times.foldl
    (fun acc t =>
      match getRegistryProto store t true acc.1 with
      | .ok (_, st1, loaded) => (st1, acc.2 + if loaded then 1 else 0)
      | .error _ => (acc.1, acc.2))
    (st, 0)

/-! ### Diff engine -/

/-- `TransitionType` from feast.diff.FcoDiff. -/
inductive TransitionType
  | create
  | delete
  | update
deriving DecidableEq, Repr

/-- A field-level difference inside an UPDATE record: field name, old value, new value. -/
structure PropertyDiff where
  property_name : String
  val_existing : String
  val_desired : String
deriving DecidableEq, Repr

/-- A Change Record of the diff engine: object name, object-kind label, the
field-level differences, and the transition tag. -/
structure FcoDiff where
  name : String
  fco_type : String
  property_diffs : List PropertyDiff
  transition_type : TransitionType
deriving DecidableEq, Repr

/-- Modelled from the spec: the module feast/diff/FcoDiff.py (not under src/)
provides `tag_proto_objects_for_keep_delete_add`, which partitions the two
collections by matching on name: present only in the desired collection gives
the to-add set, present only in the existing collection gives the to-delete set,
present in both gives the to-keep set. -/
def tagProtoObjectsForKeepDeleteAdd (existing desired : List FcoSpec) :
    List FcoSpec × List FcoSpec × List FcoSpec :=
  let existingNames := existing.map (fun o => o.name)
  let desiredNames := desired.map (fun o => o.name)
  (desired.filter (fun o => decide (o.name ∈ existingNames)),
   existing.filter (fun o => decide (o.name ∉ desiredNames)),
   desired.filter (fun o => decide (o.name ∉ existingNames)))

/-- Modelled from the spec: the field-by-field comparison of two spec payloads,
yielding one `PropertyDiff` per differing field (positions where the field lists
disagree; a missing side renders as the empty string). -/
def fieldsDiff : List (String × String) → List (String × String) → List PropertyDiff
  | [], bs => bs.map (fun g => ⟨g.1, "", g.2⟩)
  | f :: as_, [] => ⟨f.1, f.2, ""⟩ :: fieldsDiff as_ []
  | f :: as_, g :: bs =>
      (if f = g then [] else [⟨f.1, f.2, g.2⟩]) ++ fieldsDiff as_ bs

/-- The differing fields between two full specs: the name and project fields plus
the payload fields. -/
def specFieldDiffs (a b : FcoSpec) : List PropertyDiff :=
  (if a.name = b.name then [] else [⟨"name", a.name, b.name⟩]) ++
  (if a.project = b.project then [] else [⟨"project", a.project, b.project⟩]) ++
  fieldsDiff a.fields b.fields

/-- Modelled from the spec: the per-pair `diff_between` of feast/diff/FcoDiff.py
(not under src/) performs a structural field comparison of a matched pair; if no
fields differ it emits nothing (the unchanged object is excluded from the Change
Set), otherwise it emits an UPDATE record listing each differing field. -/
def diffBetweenPair (current desired : FcoSpec) (fcoType : String) : Option FcoDiff :=
  let ds := specFieldDiffs current desired
  if ds.isEmpty then none
  else some ⟨desired.name, fcoType, ds, .update⟩

/-- The `[_e for _e in current if _e.spec.name == e.spec.name][0]` lookup of
`Registry.diff_between`: the FIRST object in the current collection with the given
name (matching is by name only, the project is ignored). -/
def firstWithName (l : List FcoSpec) (n : String) : Option FcoSpec :=
  l.find? (fun x => decide (x.name = n))

/-- One iteration of the object-kind loop of `Registry.diff_between`: CREATE
records for the to-add set, DELETE records for the to-delete set, then for each
kept object the per-pair diff against the first same-named object of the current
collection. (The `none` inner branch is unreachable: every kept name occurs in
the current collection.) -/
def diffKind (fcoType : String) (current desired : List FcoSpec) : List FcoDiff :=
  let tags := tagProtoObjectsForKeepDeleteAdd current desired
  (tags.2.2.map fun o => ⟨o.name, fcoType, [], .create⟩) ++
  (tags.2.1.map fun o => ⟨o.name, fcoType, [], .delete⟩) ++
  (tags.1.filterMap fun o =>
    match firstWithName current o.name with
    | some c => diffBetweenPair c o fcoType
    | none => none)

/-- `Registry.diff_between`: concatenate the records of the six object kinds, in
the source's iteration order and with the source's kind labels. -/
def diffBetween (current_registry new_registry : RegistryProto) : List FcoDiff :=
  diffKind "entity"
    (current_registry.entities.map (fun o => o.spec))
    (new_registry.entities.map (fun o => o.spec)) ++
  diffKind "feature view"
    (current_registry.feature_views.map (fun o => o.spec))
    (new_registry.feature_views.map (fun o => o.spec)) ++
  diffKind "feature table"
    (current_registry.feature_tables.map (fun o => o.spec))
    (new_registry.feature_tables.map (fun o => o.spec)) ++
  diffKind "on demand feature view"
    (current_registry.on_demand_feature_views.map (fun o => o.spec))
    (new_registry.on_demand_feature_views.map (fun o => o.spec)) ++
  diffKind "request feature view"
    (current_registry.request_feature_views.map (fun o => o.spec))
    (new_registry.request_feature_views.map (fun o => o.spec)) ++
  diffKind "feature service"
    (current_registry.feature_services.map (fun o => o.spec))
    (new_registry.feature_services.map (fun o => o.spec))

/-! ### Projection (to_dict) -/

/-- `Registry.list_entities`: the entities whose project matches, in collection order. -/
def listEntities (r : RegistryProto) (project : String) : List FcoProto :=
  r.entities.filter (fun o => decide (o.spec.project = project))

/-- `Registry.list_feature_views`. -/
def listFeatureViews (r : RegistryProto) (project : String) : List FVProto :=
  r.feature_views.filter (fun o => decide (o.spec.project = project))

/-- `Registry.list_on_demand_feature_views`. -/
def listOnDemandFeatureViews (r : RegistryProto) (project : String) : List FVProto :=
  r.on_demand_feature_views.filter (fun o => decide (o.spec.project = project))

/-- `Registry.list_request_feature_views`. -/
def listRequestFeatureViews (r : RegistryProto) (project : String) : List FVProto :=
  r.request_feature_views.filter (fun o => decide (o.spec.project = project))

/-- `Registry.list_feature_services`. -/
def listFeatureServices (r : RegistryProto) (project : String) : List FcoProto :=
  r.feature_services.filter (fun o => decide (o.spec.project = project))

/-- Python's stable `sorted(..., key=lambda o: o.name)`, modelled by a stable
sort on the name order (insertion sort, which is stable like Python's sort). -/
def sortByName (nm : α → String) (l : List α) : List α :=
  l.insertionSort (fun a b => nm a ≤ nm b)

/-- The output of `Registry.to_dict`: one name-sorted rendered list per externally
visible kind (rendering `MessageToDict(x.to_proto())` is modelled as the proto
itself). -/
structure RegistryDict where
  entities : List FcoProto
  featureViews : List FVProto
  featureServices : List FcoProto
  onDemandFeatureViews : List FVProto
  requestFeatureViews : List FVProto
deriving DecidableEq, Repr

/-- `Registry.to_dict`: for each of the five kinds, the project-filtered list
sorted by name. -/
def toDict (r : RegistryProto) (project : String) : RegistryDict :=
  { entities := sortByName (fun o => o.spec.name) (listEntities r project)
    featureViews := sortByName (fun o => o.spec.name) (listFeatureViews r project)
    featureServices := sortByName (fun o => o.spec.name) (listFeatureServices r project)
    onDemandFeatureViews :=
      sortByName (fun o => o.spec.name) (listOnDemandFeatureViews r project)
    requestFeatureViews :=
      sortByName (fun o => o.spec.name) (listRequestFeatureViews r project) }

/-! ### Operation sequences over the snapshot -/

/-- One mutating registry operation (the state-changing part, acting on the
prepared snapshot). -/
inductive RegOp
  | applyEntityOp (entity : FcoProto) (project : String)
  | applyFeatureServiceOp (feature_service : FcoProto) (project : String)
  | applyFeatureViewOp (fv : FVObj) (project : String) (now : Nat)
  | applyMaterializationOp (name project : String) (start_date end_date : Nat)
  | deleteEntityOp (name project : String)
  | deleteFeatureViewOp (name project : String)
  | deleteFeatureServiceOp (name project : String)
deriving Repr

/-- Run one operation on a snapshot (keeping the post-call state, whether or not
an exception was raised — Python mutates the cache in place and the raise leaves
it as is). -/
def runOp (r : RegistryProto) : RegOp → RegistryProto
  | .applyEntityOp e p => applyEntity e p r
  | .applyFeatureServiceOp f p => applyFeatureService f p r
  | .applyFeatureViewOp fv p n => (applyFeatureView fv p n r).1
  | .applyMaterializationOp n p sd ed => (applyMaterialization n p sd ed r).1
  | .deleteEntityOp n p => (deleteEntity n p r).1
  | .deleteFeatureViewOp n p => (deleteFeatureView n p r).1
  | .deleteFeatureServiceOp n p => (deleteFeatureService n p r).1

/-- Run a sequence of operations. -/
def runOps (ops : List RegOp) (r : RegistryProto) : RegistryProto :=
  ops.foldl runOp r

/-- Uniqueness of the (name, project) pair within one collection. -/
def NPUnique (nm pj : α → String) (l : List α) : Prop :=
  l.Pairwise (fun a b => ¬ (nm a = nm b ∧ pj a = pj b))

/-- The per-collection uniqueness invariant of the snapshot, over the five
externally visible collections. -/
def RegistryInv (r : RegistryProto) : Prop :=
  NPUnique (fun o => o.spec.name) (fun o => o.spec.project) r.entities ∧
  NPUnique (fun o => o.spec.name) (fun o => o.spec.project) r.feature_views ∧
  NPUnique (fun o => o.spec.name) (fun o => o.spec.project) r.on_demand_feature_views ∧
  NPUnique (fun o => o.spec.name) (fun o => o.spec.project) r.request_feature_views ∧
  NPUnique (fun o => o.spec.name) (fun o => o.spec.project) r.feature_services

instance (nm pj : α → String) (l : List α) : Decidable (NPUnique nm pj l) := by
  unfold NPUnique; infer_instance

instance (r : RegistryProto) : Decidable (RegistryInv r) := by
  unfold RegistryInv; infer_instance

/-- `Registry.get_feature_view` restricted to its lookup: the first entry of
`feature_views` with the given (name, project), or `none` (the method then raises
`FeatureViewNotFoundException`). -/
def getFeatureView (name project : String) (r : RegistryProto) : Option FVProto :=
  r.feature_views.find? (fun x => decide (x.spec.name = name ∧ x.spec.project = project))

/-- The name `n` is used by an object of the given feature-view variant type
somewhere in the snapshot (any project). -/
def nameUsedWithVariant (r : RegistryProto) (n : String) (v : FVVariant) : Prop :=
  ∃ fv ∈ getFvColl r v, fv.spec.name = n

instance (r : RegistryProto) (n : String) (v : FVVariant) :
    Decidable (nameUsedWithVariant r n v) := by
  unfold nameUsedWithVariant; infer_instance

/-! ### Concrete snapshots used by witnesses and counterexamples -/

/-- A snapshot holding one request feature view named "n" in project "p1". -/
def conflictReg : RegistryProto :=
  { registry_schema_version := "1"
    entities := []
    feature_views := []
    feature_tables := []
    on_demand_feature_views := []
    request_feature_views := [⟨⟨"n", "p1", []⟩, none, []⟩]
    feature_services := [] }

/-- A regular feature view named "n", not yet stamped with a project. -/
def conflictObj : FVObj := ⟨⟨"n", "", []⟩, none, [], .regular⟩

/-- A snapshot with a regular feature view ("n", "p1") and a request feature view
("n", "p3"): the name "n" lives in two variant collections, under different
projects, which the per-collection and cross-collection (name, project)
invariants both allow. -/
def shadowReg : RegistryProto :=
  { registry_schema_version := "1"
    entities := []
    feature_views := [⟨⟨"n", "p1", []⟩, none, []⟩]
    feature_tables := []
    on_demand_feature_views := []
    request_feature_views := [⟨⟨"n", "p3", []⟩, none, []⟩]
    feature_services := [] }

/-- A request feature view named "n" (a different variant than the regular
feature view stored under ("n", "p1")). -/
def shadowObj : FVObj := ⟨⟨"n", "", []⟩, none, [], .request⟩

/-- A snapshot whose only feature-view variant named "n" is a regular feature
view stored under project "p1". -/
def conflictProjectReg : RegistryProto :=
  { registry_schema_version := "1"
    entities := []
    feature_views := [⟨⟨"n", "p1", []⟩, none, []⟩]
    feature_tables := []
    on_demand_feature_views := []
    request_feature_views := []
    feature_services := [] }

/-- An entity proto stored under project "p" (already stamped, so re-applying it
is the semantically-identical case). -/
def idemEnt : FcoProto := ⟨⟨"zipcode", "p", []⟩⟩

/-- A snapshot holding `idemEnt` first and one other entity after it. -/
def idemReg : RegistryProto :=
  { registry_schema_version := "1"
    entities := [idemEnt, ⟨⟨"other", "p", []⟩⟩]
    feature_views := []
    feature_tables := []
    on_demand_feature_views := []
    request_feature_views := []
    feature_services := [] }

/-- A snapshot holding a regular feature view ("fv1", "p1") with a created
timestamp and one recorded materialization interval. -/
def idemFvReg : RegistryProto :=
  { registry_schema_version := "1"
    entities := []
    feature_views := [⟨⟨"fv1", "p1", [("ttl", "60")]⟩, some 5, [(0, 1)]⟩]
    feature_tables := []
    on_demand_feature_views := []
    request_feature_views := []
    feature_services := [] }

/-- A snapshot with one feature view ("fv", "p") carrying no materialization
intervals yet. -/
def matReg : RegistryProto :=
  { registry_schema_version := "1"
    entities := []
    feature_views := [⟨⟨"fv", "p", []⟩, none, []⟩]
    feature_tables := []
    on_demand_feature_views := []
    request_feature_views := []
    feature_services := [] }

/-- A snapshot carrying the same entity name under two different projects: the
per-collection (name, project) uniqueness invariant holds, yet names collide. -/
def dupNameReg : RegistryProto :=
  { registry_schema_version := "1"
    entities := [⟨⟨"n", "p1", []⟩⟩, ⟨⟨"n", "p2", []⟩⟩]
    feature_views := []
    feature_tables := []
    on_demand_feature_views := []
    request_feature_views := []
    feature_services := [] }

/-! ## Theorems -/

theorem cacheExpired_some (p : RegistryProto) (created ttl now : Nat) :
    cacheExpired ⟨some p, some created, ttl⟩ now =
      (decide (0 < ttl) && decide (created + ttl < now)) := rfl

theorem getRegistryProto_fresh (store : Option RegistryProto) (p : RegistryProto)
    (created ttl now : Nat) (h : ttl = 0 ∨ now ≤ created + ttl) :
    getRegistryProto store now true ⟨some p, some created, ttl⟩ =
      .ok (p, ⟨some p, some created, ttl⟩, false) := by
  have hexp : cacheExpired ⟨some p, some created, ttl⟩ now = false := by
    rw [cacheExpired_some]
    rcases h with h | h
    · subst h; simp
    · simp [Nat.not_lt.mpr h]
  simp [getRegistryProto, hexp]

theorem runCachedGets_saturated (q : RegistryProto) (t0 c : Nat) (ts : List Nat)
    (hts : ∀ t ∈ ts, t ≤ t0 + 60) :
    (ts.foldl
      (fun acc t =>
        match getRegistryProto (some q) t true acc.1 with
        | .ok (_, st1, loaded) => (st1, acc.2 + if loaded then 1 else 0)
        | .error _ => (acc.1, acc.2))
      (⟨some q, some t0, 60⟩, c)) = (⟨some q, some t0, 60⟩, c) := by
  induction ts generalizing c with
  | nil => rfl
  | cons t ts ih =>
    have ht : t ≤ t0 + 60 := hts t (List.mem_cons_self t ts)
    have hstep := getRegistryProto_fresh (some q) q t0 60 t (Or.inr ht)
    simp only [List.foldl_cons, hstep]
    simpa using ih c (fun u hu => hts u (List.mem_cons_of_mem _ hu))

/-- C4: with a populated cache, `get(allowCache=true)` returns the cached snapshot
without a backend load exactly when the TTL is zero or the current time is at most
the load time plus the TTL; and with TTL = 60, a first cached get at time t0
followed by any number of cached gets at times at most t0 + 60 triggers exactly
one backend load. -/
theorem cachedGet_ttl_spec (store : Option RegistryProto) (p q : RegistryProto)
    (created ttl now t0 : Nat) (ts : List Nat) (hts : ∀ t ∈ ts, t ≤ t0 + 60) :
    (getRegistryProto store now true ⟨some p, some created, ttl⟩ =
        .ok (p, ⟨some p, some created, ttl⟩, false)
      ↔ (ttl = 0 ∨ now ≤ created + ttl)) ∧
    (runCachedGets (some q) (t0 :: ts) ⟨none, none, 60⟩).2 = 1 := by
  constructor
  · constructor
    · intro h
      by_contra hc
      push_neg at hc
      obtain ⟨h0, hlt⟩ := hc
      have hpos : 0 < ttl := Nat.pos_of_ne_zero h0
      have hexp : cacheExpired ⟨some p, some created, ttl⟩ now = true := by
        rw [cacheExpired_some]; simp [hpos, hlt]
      simp only [getRegistryProto, hexp] at h
      cases store with
      | some r => simp at h
      | none => simp at h
    · exact getRegistryProto_fresh store p created ttl now
  · have h0 : getRegistryProto (some q) t0 true ⟨none, none, 60⟩ =
        .ok (q, ⟨some q, some t0, 60⟩, true) := by
      simp [getRegistryProto, cacheExpired]
    rw [runCachedGets]
    simp only [List.foldl_cons, h0]
    rw [runCachedGets_saturated q t0 _ ts hts]
    simp

/-- A closed instance of `cachedGet_ttl_spec`: TTL 60, cache loaded at time 0,
read at time 42; and three cached gets at times 5, 17, 60 after a first get at
time 5 cause exactly one backend load. -/
theorem cachedGet_ttl_spec_witness :
    (getRegistryProto (some emptyRegistryProto) 42 true ⟨some emptyRegistryProto, some 0, 60⟩ =
        .ok (emptyRegistryProto, ⟨some emptyRegistryProto, some 0, 60⟩, false)
      ↔ (60 = 0 ∨ 42 ≤ 0 + 60)) ∧
    (runCachedGets (some emptyRegistryProto) [5, 17, 60, 65] ⟨none, none, 60⟩).2 = 1 :=
  cachedGet_ttl_spec (some emptyRegistryProto) emptyRegistryProto emptyRegistryProto
    0 60 42 5 [17, 60, 65] (by decide)

/-- C5: when the backend load fails with NotFound (no registry blob), the
prepare-for-changes path does not propagate the error: it installs a fresh empty
snapshot stamped with schema version "1" as the cache and returns it; outside that
context (a plain `get` forcing a load), the NotFound error is propagated. -/
theorem prepare_bootstrap_spec (now : Nat) (st : RegistryState)
    (hmiss : st.cached_registry_proto = none) :
    (prepareRegistryForChanges none now st).1 = emptyRegistryProto ∧
    (prepareRegistryForChanges none now st).2.cached_registry_proto = some emptyRegistryProto ∧
    emptyRegistryProto.registry_schema_version = REGISTRY_SCHEMA_VERSION ∧
    (∀ now2 st2, getRegistryProto (none : Option RegistryProto) now2 false st2 = .error ()) := by
  have hexp : cacheExpired st now = true := by
    unfold cacheExpired; rw [hmiss]
  have hget : getRegistryProto none now true st = .error () := by
    simp [getRegistryProto, hexp]
  refine ⟨?_, ?_, rfl, ?_⟩
  · unfold prepareRegistryForChanges; rw [hget]
  · unfold prepareRegistryForChanges; rw [hget]
  · intro now2 st2
    simp [getRegistryProto]

/-- A closed instance of `prepare_bootstrap_spec` at an initially empty registry
state. -/
theorem prepare_bootstrap_spec_witness :
    (prepareRegistryForChanges none 7 ⟨none, none, 60⟩).1 = emptyRegistryProto ∧
    (prepareRegistryForChanges none 7 ⟨none, none, 60⟩).2.cached_registry_proto =
      some emptyRegistryProto ∧
    emptyRegistryProto.registry_schema_version = REGISTRY_SCHEMA_VERSION ∧
    (∀ now2 st2, getRegistryProto (none : Option RegistryProto) now2 false st2 = .error ()) :=
  prepare_bootstrap_spec 7 ⟨none, none, 60⟩ rfl

theorem mergedVariantLookup_used (r : RegistryProto) (n : String) (v : FVVariant)
    (h : mergedVariantLookup r n = some v) : nameUsedWithVariant r n v := by
  unfold mergedVariantLookup at h
  split_ifs at h with h1 h2 h3 <;>
    simp only [Option.some.injEq] at h <;> subst h
  · exact h1
  · exact h2
  · exact h3

theorem mergedVariantLookup_isSome (r : RegistryProto) (n : String) (v : FVVariant)
    (h : nameUsedWithVariant r n v) : ∃ w, mergedVariantLookup r n = some w := by
  unfold mergedVariantLookup
  split_ifs with h1 h2 h3
  · exact ⟨.request, rfl⟩
  · exact ⟨.regular, rfl⟩
  · exact ⟨.onDemand, rfl⟩
  · exfalso
    cases v with
    | regular => exact h2 h
    | onDemand => exact h3 h
    | request => exact h1 h

theorem checkConflicting_true_of (fv : FVObj) (r : RegistryProto) (w : FVVariant)
    (hw : mergedVariantLookup r fv.spec.name = some w) (hne : w ≠ fv.variant) :
    checkConflictingFeatureViewNames fv r = true := by
  unfold checkConflictingFeatureViewNames
  rw [hw]
  simp [hne]

theorem applyFeatureView_raises_of_check (fv : FVObj) (project : String) (now : Nat)
    (r : RegistryProto) (hc : checkConflictingFeatureViewNames fv r = true) :
    applyFeatureView fv project now r = (r, some .conflictingFeatureViewNames) := by
  unfold applyFeatureView
  rw [hc]
  simp

/-- C2: applying a feature-view-variant object whose name is already used only by
objects of other variant types fails with `ConflictingFeatureViewNames`, and the
snapshot is returned exactly as it was — the incoming object is never inserted. -/
theorem applyFeatureView_conflict_spec (fv : FVObj) (project : String) (now : Nat)
    (r : RegistryProto)
    (hused : ∃ v, nameUsedWithVariant r fv.spec.name v)
    (hdiff : ∀ v, nameUsedWithVariant r fv.spec.name v → v ≠ fv.variant) :
    applyFeatureView fv project now r = (r, some .conflictingFeatureViewNames) := by
  obtain ⟨v, hv⟩ := hused
  obtain ⟨w, hw⟩ := mergedVariantLookup_isSome r fv.spec.name v hv
  have hwused := mergedVariantLookup_used r fv.spec.name w hw
  exact applyFeatureView_raises_of_check fv project now r
    (checkConflicting_true_of fv r w hw (hdiff w hwused))

/-- A closed instance of `applyFeatureView_conflict_spec`: a request feature view
named "n" exists, applying a regular feature view named "n" to the same project
raises and inserts nothing. -/
theorem applyFeatureView_conflict_spec_witness :
    applyFeatureView conflictObj "p1" 0 conflictReg =
      (conflictReg, some .conflictingFeatureViewNames) :=
  applyFeatureView_conflict_spec conflictObj "p1" 0 conflictReg
    ⟨.request, by decide⟩ (by decide)

/-- C10 as stated is false: `shadowReg` contains a feature-view-variant object
named "n" stored under project "p1" (a regular feature view), `shadowObj` is of a
different variant type (request) with the same name, no object ("n", "p2") exists
in any collection — yet applying it to project "p2" does NOT raise
`ConflictingFeatureViewNames`: in the merged name map the request entry ("n", "p3")
shadows the regular entry, and it has the incoming object's own variant type. -/
theorem conflict_check_counterexample :
    (∃ x ∈ shadowReg.feature_views, x.spec.name = "n" ∧ x.spec.project = "p1") ∧
    shadowObj.variant ≠ .regular ∧ shadowObj.spec.name = "n" ∧
    (∀ x ∈ shadowReg.feature_views ++ shadowReg.on_demand_feature_views ++
        shadowReg.request_feature_views,
      ¬ (x.spec.name = "n" ∧ x.spec.project = "p2")) ∧
    (∀ x ∈ shadowReg.entities ++ shadowReg.feature_services,
      ¬ (x.spec.name = "n" ∧ x.spec.project = "p2")) ∧
    (applyFeatureView shadowObj "p2" 0 shadowReg).2 ≠ some .conflictingFeatureViewNames := by
  decide

/-- C10 amended: when the name is used by exactly one variant type, the conflict
check compares names across all projects and ignores the project entirely: for a
snapshot whose only feature-view variant using name n is of type v, stored under
whatever project, applying an object named n of any other variant type to ANY
project — in particular one where no (n, project) object exists — raises
`ConflictingFeatureViewNames` and leaves the snapshot exactly as it was. -/
theorem conflict_check_ignores_project (fv : FVObj) (p2 : String) (now : Nat)
    (r : RegistryProto) (v : FVVariant)
    (hv : nameUsedWithVariant r fv.spec.name v)
    (honly : ∀ w, nameUsedWithVariant r fv.spec.name w → w = v)
    (hne : v ≠ fv.variant) :
    applyFeatureView fv p2 now r = (r, some .conflictingFeatureViewNames) := by
  obtain ⟨w, hw⟩ := mergedVariantLookup_isSome r fv.spec.name v hv
  have hwv : w = v := honly w (mergedVariantLookup_used r fv.spec.name w hw)
  exact applyFeatureView_raises_of_check fv p2 now r
    (checkConflicting_true_of fv r w hw (by rw [hwv]; exact hne))

/-- A closed instance of `conflict_check_ignores_project`: only a regular feature
view uses "n" (stored under "p1"); applying an on-demand feature view named "n"
to the unrelated project "p2" raises. -/
theorem conflict_check_ignores_project_witness :
    applyFeatureView (⟨⟨"n", "", []⟩, none, [], .onDemand⟩ : FVObj) "p2" 0
        conflictProjectReg =
      (conflictProjectReg, some .conflictingFeatureViewNames) :=
  conflict_check_ignores_project ⟨⟨"n", "", []⟩, none, [], .onDemand⟩ "p2" 0
    conflictProjectReg .regular (by decide) (by decide) (by decide)

/-- C1 as stated is false for the entity kind: the incoming entity is identical
to the stored entry (stamping the project changes nothing), yet `apply_entity`
removes the stored entry and appends the incoming proto, so the collection's
order changes — there is no idempotence check outside the feature-view kinds. -/
theorem apply_idempotent_counterexample :
    stampProject idemEnt "p" = idemEnt ∧
    idemEnt ∈ idemReg.entities ∧
    (applyEntity idemEnt "p" idemReg).entities ≠ idemReg.entities := by
  decide

theorem checkConflicting_false_of (fv : FVObj) (r : RegistryProto)
    (h : ∀ w, nameUsedWithVariant r fv.spec.name w → w = fv.variant) :
    checkConflictingFeatureViewNames fv r = false := by
  unfold checkConflictingFeatureViewNames
  cases hlk : mergedVariantLookup r fv.spec.name with
  | none => rfl
  | some w =>
    have hw := h w (mergedVariantLookup_used r fv.spec.name w hlk)
    simp [hw]

theorem applyFvToColl_eq_none (fvp : FVProto) (project : String) (l : List FVProto)
    (hmem : ∃ x ∈ l, x.spec.name = fvp.spec.name ∧ x.spec.project = project)
    (hsem : ∀ x ∈ l, x.spec.name = fvp.spec.name ∧ x.spec.project = project → FVSemEq x fvp) :
    applyFvToColl fvp project l = none := by
  induction l with
  | nil => simp at hmem
  | cons x xs ih =>
    by_cases hx : x.spec.name = fvp.spec.name ∧ x.spec.project = project
    · have hs : FVSemEq x fvp := hsem x (List.mem_cons_self x xs) hx
      unfold applyFvToColl
      rw [if_pos hx, if_pos hs]
    · obtain ⟨y, hy, hk⟩ := hmem
      rcases List.mem_cons.mp hy with hyx | hyxs
      · exact absurd (hyx ▸ hk) hx
      · have hrec := ih ⟨y, hyxs, hk⟩
          (fun z hz hzk => hsem z (List.mem_cons_of_mem x hz) hzk)
        unfold applyFvToColl
        rw [if_neg hx, hrec]
        rfl

/-- C1 amended: the idempotent no-op holds for the feature-view kinds only
(regular, on-demand and request feature views, which share `apply_feature_view`):
when the variant's collection holds an entry with the incoming (name, project)
whose spec payload equals the incoming one (semantic identity ignores the created
timestamp and the materialization intervals), and the name is not claimed by a
different variant type, apply returns without mutating anything — the existing
entry is kept, nothing is appended, and the snapshot is unchanged. For entities
and feature services no such check exists and apply always removes the stored
entry and appends the incoming proto. -/
theorem applyFeatureView_idempotent (fv : FVObj) (project : String) (now : Nat)
    (r : RegistryProto)
    (hmem : ∃ x ∈ getFvColl r fv.variant,
      x.spec.name = fv.spec.name ∧ x.spec.project = project)
    (hsem : ∀ x ∈ getFvColl r fv.variant,
      x.spec.name = fv.spec.name ∧ x.spec.project = project →
        x.spec.fields = fv.spec.fields)
    (honly : ∀ w, nameUsedWithVariant r fv.spec.name w → w = fv.variant) :
    applyFeatureView fv project now r = (r, none) := by
  have hchk := checkConflicting_false_of fv r honly
  have hloop : applyFvToColl (fvToProto fv project now) project (getFvColl r fv.variant) =
      none := by
    apply applyFvToColl_eq_none
    · obtain ⟨x, hx, hk⟩ := hmem
      exact ⟨x, hx, hk⟩
    · intro x hx hk
      exact ⟨hk.1, hsem x hx hk⟩
  unfold applyFeatureView
  rw [hchk]
  simp only [Bool.false_eq_true, if_false, hloop]

/-- A closed instance of `applyFeatureView_idempotent`: re-applying an unchanged
definition of "fv1" (no timestamp yet, same spec payload) is a no-op. -/
theorem applyFeatureView_idempotent_witness :
    applyFeatureView (⟨⟨"fv1", "", [("ttl", "60")]⟩, none, [], .regular⟩ : FVObj)
        "p1" 99 idemFvReg = (idemFvReg, none) :=
  applyFeatureView_idempotent ⟨⟨"fv1", "", [("ttl", "60")]⟩, none, [], .regular⟩
    "p1" 99 idemFvReg (by decide) (by decide) (by decide)

theorem delFirstNP_eq_none_iff (nm pj : α → String) (n p : String) (l : List α) :
    delFirstNP nm pj n p l = none ↔ ∀ x ∈ l, ¬ (nm x = n ∧ pj x = p) := by
  induction l with
  | nil => simp [delFirstNP]
  | cons x xs ih =>
    unfold delFirstNP
    by_cases hx : nm x = n ∧ pj x = p
    · simp [hx]
    · simp only [if_neg hx, Option.map_eq_none', ih, List.mem_cons]
      constructor
      · intro h y hy
        rcases hy with hyx | hyxs
        · exact hyx ▸ hx
        · exact h y hyxs
      · intro h y hy
        exact h y (Or.inr hy)

/-- C6: each delete raises its kind-specific NotFound exception exactly when no
entry with the given (name, project) exists in the searched collection(s) — for
feature views, both `feature_views` and `request_feature_views` are searched
before failing — and whenever the delete raises, the snapshot is returned exactly
as it was. -/
theorem delete_not_found_spec (name project : String) (r : RegistryProto) :
    ((deleteEntity name project r).2 = some .entityNotFoundException ↔
      ∀ x ∈ r.entities, ¬ (x.spec.name = name ∧ x.spec.project = project)) ∧
    ((deleteEntity name project r).2 ≠ none → (deleteEntity name project r).1 = r) ∧
    ((deleteFeatureService name project r).2 = some .featureServiceNotFoundException ↔
      ∀ x ∈ r.feature_services, ¬ (x.spec.name = name ∧ x.spec.project = project)) ∧
    ((deleteFeatureService name project r).2 ≠ none →
      (deleteFeatureService name project r).1 = r) ∧
    ((deleteFeatureView name project r).2 = some .featureViewNotFoundException ↔
      (∀ x ∈ r.feature_views, ¬ (x.spec.name = name ∧ x.spec.project = project)) ∧
      (∀ x ∈ r.request_feature_views, ¬ (x.spec.name = name ∧ x.spec.project = project))) ∧
    ((deleteFeatureView name project r).2 ≠ none → (deleteFeatureView name project r).1 = r) := by
  refine ⟨?_, ?_, ?_, ?_, ?_, ?_⟩
  · unfold deleteEntity
    cases hdel : delFirstNP (fun x => x.spec.name) (fun x => x.spec.project) name project
        r.entities with
    | some l =>
      simp only []
      refine iff_of_false (by simp) ?_
      rw [← delFirstNP_eq_none_iff (fun x : FcoProto => x.spec.name)
        (fun x => x.spec.project) name project]
      simp [hdel]
    | none =>
      simp only []
      refine iff_of_true (by simp) ?_
      exact (delFirstNP_eq_none_iff _ _ _ _ _).mp hdel
  · unfold deleteEntity
    cases hdel : delFirstNP (fun x => x.spec.name) (fun x => x.spec.project) name project
        r.entities with
    | some l => simp
    | none => simp
  · unfold deleteFeatureService
    cases hdel : delFirstNP (fun x => x.spec.name) (fun x => x.spec.project) name project
        r.feature_services with
    | some l =>
      simp only []
      refine iff_of_false (by simp) ?_
      rw [← delFirstNP_eq_none_iff (fun x : FcoProto => x.spec.name)
        (fun x => x.spec.project) name project]
      simp [hdel]
    | none =>
      simp only []
      refine iff_of_true (by simp) ?_
      exact (delFirstNP_eq_none_iff _ _ _ _ _).mp hdel
  · unfold deleteFeatureService
    cases hdel : delFirstNP (fun x => x.spec.name) (fun x => x.spec.project) name project
        r.feature_services with
    | some l => simp
    | none => simp
  · unfold deleteFeatureView
    cases hdel1 : delFirstNP (fun x => x.spec.name) (fun x => x.spec.project) name project
        r.feature_views with
    | some l =>
      simp only []
      refine iff_of_false (by simp) ?_
      intro hc
      have := (delFirstNP_eq_none_iff (fun x : FVProto => x.spec.name)
        (fun x => x.spec.project) name project r.feature_views).mpr hc.1
      rw [this] at hdel1
      exact Option.noConfusion hdel1
    | none =>
      cases hdel2 : delFirstNP (fun x => x.spec.name) (fun x => x.spec.project) name project
          r.request_feature_views with
      | some l =>
        simp only []
        refine iff_of_false (by simp) ?_
        intro hc
        have := (delFirstNP_eq_none_iff (fun x : FVProto => x.spec.name)
          (fun x => x.spec.project) name project r.request_feature_views).mpr hc.2
        rw [this] at hdel2
        exact Option.noConfusion hdel2
      | none =>
        simp only []
        refine iff_of_true (by simp) ?_
        exact ⟨(delFirstNP_eq_none_iff _ _ _ _ _).mp hdel1,
          (delFirstNP_eq_none_iff _ _ _ _ _).mp hdel2⟩
  · unfold deleteFeatureView
    cases hdel1 : delFirstNP (fun x => x.spec.name) (fun x => x.spec.project) name project
        r.feature_views with
    | some l => simp
    | none =>
      cases hdel2 : delFirstNP (fun x => x.spec.name) (fun x => x.spec.project) name project
          r.request_feature_views with
      | some l => simp
      | none => simp

/-- A closed instance of `delete_not_found_spec`: deleting the absent
("ghost", "p1") from `idemFvReg` raises each kind-specific NotFound error and
leaves the snapshot unchanged. -/
theorem delete_not_found_spec_witness :
    (deleteEntity "ghost" "p1" idemFvReg).2 = some .entityNotFoundException ∧
    (deleteEntity "ghost" "p1" idemFvReg).1 = idemFvReg ∧
    (deleteFeatureView "ghost" "p1" idemFvReg).2 = some .featureViewNotFoundException ∧
    (deleteFeatureView "ghost" "p1" idemFvReg).1 = idemFvReg := by
  have h := delete_not_found_spec "ghost" "p1" idemFvReg
  have h1 : (deleteEntity "ghost" "p1" idemFvReg).2 = some .entityNotFoundException :=
    h.1.mpr (by decide)
  have h5 : (deleteFeatureView "ghost" "p1" idemFvReg).2 =
      some .featureViewNotFoundException :=
    h.2.2.2.2.1.mpr (by decide)
  refine ⟨h1, h.2.1 (by rw [h1]; exact Option.noConfusion), h5, ?_⟩
  exact h.2.2.2.2.2 (by rw [h5]; exact Option.noConfusion)

theorem NPUnique_filter_out_append (nm pj : α → String) (n p : String) (l : List α)
    (hu : NPUnique nm pj l) (a : α) (ha : nm a = n ∧ pj a = p) :
    NPUnique nm pj (l.filter (fun z => !decide (nm z = n ∧ pj z = p)) ++ [a]) := by
  rw [NPUnique, List.pairwise_append]
  refine ⟨List.Pairwise.sublist (List.filter_sublist l) hu,
    List.pairwise_singleton _ _, ?_⟩
  intro y hy b hb
  rcases List.mem_singleton.mp hb with rfl
  have hyl := List.mem_filter.mp hy
  intro hk
  have hym : nm y = n ∧ pj y = p := ⟨hk.1.trans ha.1, hk.2.trans ha.2⟩
  rw [hym.1, hym.2] at hyl
  simp at hyl

theorem find?_append_of_none (p : α → Bool) (l₁ l₂ : List α) (h : l₁.find? p = none) :
    (l₁ ++ l₂).find? p = l₂.find? p := by
  induction l₁ with
  | nil => rfl
  | cons x xs ih =>
    cases hp : p x with
    | true =>
      exfalso
      rw [List.find?_cons_of_pos _ hp] at h
      exact Option.noConfusion h
    | false =>
      rw [List.find?_cons_of_neg _ (by simp [hp])] at h
      rw [List.cons_append, List.find?_cons_of_neg _ (by simp [hp])]
      exact ih h

theorem filter_not_match_eq_self (nm pj : α → String) (n p : String) (l : List α)
    (h : ∀ x ∈ l, ¬ (nm x = n ∧ pj x = p)) :
    l.filter (fun z => !decide (nm z = n ∧ pj z = p)) = l := by
  apply List.filter_eq_self.mpr
  intro a ha
  cases hd : decide (nm a = n ∧ pj a = p) with
  | true => exact absurd (of_decide_eq_true hd) (h a ha)
  | false => rfl

/-- Under (name, project) uniqueness, the `apply_materialization` loop finding a
match produces exactly: the collection with the match removed, the updated entry
appended at the end. -/
theorem applyMatToColl_closed_form (name project : String) (sd ed : Nat)
    (l : List FVProto)
    (hu : NPUnique (fun o : FVProto => o.spec.name) (fun o => o.spec.project) l)
    (x : FVProto)
    (hfind : l.find? (fun z => decide (z.spec.name = name ∧ z.spec.project = project)) =
      some x) :
    applyMatToColl name project sd ed l =
      some (l.filter (fun z => !decide (z.spec.name = name ∧ z.spec.project = project)) ++
        [{ x with materialization_intervals :=
            x.materialization_intervals ++ [(sd, ed)] }]) := by
  induction l with
  | nil => exact absurd hfind (by simp)
  | cons z zs ih =>
    rcases List.pairwise_cons.mp hu with ⟨hz, hzs⟩
    by_cases hm : z.spec.name = name ∧ z.spec.project = project
    · have hxz : x = z := by
        rw [List.find?_cons_of_pos _ (by simpa using hm)] at hfind
        exact (Option.some.inj hfind).symm
      subst hxz
      have hnomatch : ∀ y ∈ zs, ¬ (y.spec.name = name ∧ y.spec.project = project) := by
        intro y hy hym
        exact hz y hy ⟨hm.1.trans hym.1.symm, hm.2.trans hym.2.symm⟩
      unfold applyMatToColl
      rw [if_pos hm]
      rw [List.filter_cons_of_neg (by simp [hm.1, hm.2]),
        filter_not_match_eq_self (fun o : FVProto => o.spec.name) (fun o => o.spec.project)
          name project zs hnomatch]
    · rw [List.find?_cons_of_neg _ (by simpa using hm)] at hfind
      unfold applyMatToColl
      rw [if_neg hm, ih hzs hfind]
      rw [List.filter_cons_of_pos (by simp [hm])]
      rfl

theorem applyMatToColl_eq_none_iff (name project : String) (sd ed : Nat)
    (l : List FVProto) :
    applyMatToColl name project sd ed l = none ↔
      ∀ x ∈ l, ¬ (x.spec.name = name ∧ x.spec.project = project) := by
  induction l with
  | nil => simp [applyMatToColl]
  | cons x xs ih =>
    unfold applyMatToColl
    by_cases hx : x.spec.name = name ∧ x.spec.project = project
    · simp [hx]
    · simp only [if_neg hx, Option.map_eq_none', ih, List.mem_cons]
      constructor
      · intro h y hy
        rcases hy with hyx | hyxs
        · exact hyx ▸ hx
        · exact h y hyxs
      · intro h y hy
        exact h y (Or.inr hy)

theorem getFeatureView_eq_none_iff (name project : String) (r : RegistryProto) :
    getFeatureView name project r = none ↔
      ∀ x ∈ r.feature_views, ¬ (x.spec.name = name ∧ x.spec.project = project) := by
  unfold getFeatureView
  rw [List.find?_eq_none]
  constructor
  · intro h x hx hc
    exact (h x hx) (decide_eq_true hc)
  · intro h x hx hc
    exact h x hx (of_decide_eq_true hc)

theorem applyMaterialization_found (name project : String) (sd ed : Nat) (r : RegistryProto)
    (hu : NPUnique (fun o : FVProto => o.spec.name) (fun o => o.spec.project) r.feature_views)
    (x : FVProto) (hget : getFeatureView name project r = some x) :
    (applyMaterialization name project sd ed r).2 = none ∧
    getFeatureView name project (applyMaterialization name project sd ed r).1 =
      some { x with materialization_intervals := x.materialization_intervals ++ [(sd, ed)] } ∧
    NPUnique (fun o : FVProto => o.spec.name) (fun o => o.spec.project)
      (applyMaterialization name project sd ed r).1.feature_views := by
  have hget2 : List.find? (fun z => decide (z.spec.name = name ∧ z.spec.project = project)) r.feature_views = some x := hget
  have hpx := List.find?_some hget2
  have hxm : x.spec.name = name ∧ x.spec.project = project := of_decide_eq_true hpx
  have hcf := applyMatToColl_closed_form name project sd ed r.feature_views hu x hget2
  have h1 : applyMaterialization name project sd ed r =
      ({ r with feature_views := r.feature_views.filter (fun z => !decide (z.spec.name = name ∧ z.spec.project = project)) ++ [{ x with materialization_intervals := x.materialization_intervals ++ [(sd, ed)] }] }, none) := by
    unfold applyMaterialization
    rw [hcf]
  refine ⟨by rw [h1], ?_, ?_⟩
  · rw [h1]
    unfold getFeatureView
    rw [find?_append_of_none]
    · rw [List.find?_cons_of_pos _ (by simp [hxm.1, hxm.2])]
    · rw [List.find?_eq_none]
      intro z hz hc
      have h2 := (List.mem_filter.mp hz).2
      rw [hc] at h2
      exact Bool.noConfusion h2
  · rw [h1]
    exact NPUnique_filter_out_append _ _ name project r.feature_views hu _
      ⟨hxm.1, hxm.2⟩

/-- C7: `apply_materialization` fails with `FeatureViewNotFoundException` (leaving
the snapshot unchanged) exactly when no feature view with the given (name,
project) exists; otherwise it appends the (start, end) interval at the end of
that view's materialization-interval list, preserving all previously recorded
intervals in order, with no merging, sorting or overlap detection; three
successive calls with intervals (t0,t1), (t1,t2), (t2,t3) yield the length-3 list
in exactly that order. -/
theorem apply_materialization_spec (name project : String) (r : RegistryProto)
    (hu : NPUnique (fun o : FVProto => o.spec.name) (fun o => o.spec.project)
      r.feature_views) :
    (∀ sd ed, getFeatureView name project r = none →
      applyMaterialization name project sd ed r = (r, some .featureViewNotFoundException)) ∧
    (∀ sd ed x, getFeatureView name project r = some x →
      (applyMaterialization name project sd ed r).2 = none ∧
      getFeatureView name project (applyMaterialization name project sd ed r).1 =
        some { x with materialization_intervals :=
          x.materialization_intervals ++ [(sd, ed)] }) ∧
    (∀ t0 t1 t2 t3 x, getFeatureView name project r = some x →
      x.materialization_intervals = [] →
      getFeatureView name project
        (applyMaterialization name project t2 t3
          ((applyMaterialization name project t1 t2
            ((applyMaterialization name project t0 t1 r).1)).1)).1 =
        some { x with materialization_intervals := [(t0, t1), (t1, t2), (t2, t3)] }) := by
  refine ⟨?_, ?_, ?_⟩
  · intro sd ed hnone
    unfold applyMaterialization
    rw [(applyMatToColl_eq_none_iff name project sd ed r.feature_views).mpr
      ((getFeatureView_eq_none_iff name project r).mp hnone)]
  · intro sd ed x hget
    have h := applyMaterialization_found name project sd ed r hu x hget
    exact ⟨h.1, h.2.1⟩
  · intro t0 t1 t2 t3 x hget hempty
    have h1 := applyMaterialization_found name project t0 t1 r hu x hget
    have h2 := applyMaterialization_found name project t1 t2 _ h1.2.2 _ h1.2.1
    have h3 := applyMaterialization_found name project t2 t3 _ h2.2.2 _ h2.2.1
    rw [h3.2.1, hempty]
    simp

/-- A closed instance of `apply_materialization_spec`: three successive
materializations of ("fv", "p") record exactly the three intervals in call
order, and materializing an absent view raises. -/
theorem apply_materialization_spec_witness :
    getFeatureView "fv" "p"
        (applyMaterialization "fv" "p" 2 3
          ((applyMaterialization "fv" "p" 1 2
            ((applyMaterialization "fv" "p" 0 1 matReg).1)).1)).1 =
      some ⟨⟨"fv", "p", []⟩, none, [(0, 1), (1, 2), (2, 3)]⟩ ∧
    applyMaterialization "ghost" "p" 0 1 matReg =
      (matReg, some .featureViewNotFoundException) := by
  have h := apply_materialization_spec "fv" "p" matReg (by decide)
  have hg := apply_materialization_spec "ghost" "p" matReg (by decide)
  exact ⟨h.2.2 0 1 2 3 ⟨⟨"fv", "p", []⟩, none, []⟩ (by decide) rfl,
    hg.1 0 1 (by decide)⟩

theorem NPUnique_append_single (nm pj : α → String) (l : List α) (a : α)
    (hu : NPUnique nm pj l) (h : ∀ x ∈ l, ¬ (nm x = nm a ∧ pj x = pj a)) :
    NPUnique nm pj (l ++ [a]) := by
  rw [NPUnique, List.pairwise_append]
  refine ⟨hu, List.pairwise_singleton _ _, ?_⟩
  intro y hy b hb
  rcases List.mem_singleton.mp hb with rfl
  exact h y hy

theorem delFirstNP_sublist (nm pj : α → String) (n p : String) (l : List α) :
    ∀ l2, delFirstNP nm pj n p l = some l2 → List.Sublist l2 l := by
  induction l with
  | nil => intro l2 h; exact absurd h (by simp [delFirstNP])
  | cons x xs ih =>
    intro l2 h
    unfold delFirstNP at h
    by_cases hx : nm x = n ∧ pj x = p
    · rw [if_pos hx] at h
      rw [← Option.some.inj h]
      exact List.sublist_cons_self x xs
    · rw [if_neg hx] at h
      rcases Option.map_eq_some'.mp h with ⟨l', hl', rfl⟩
      exact List.Sublist.cons₂ x (ih l' hl')

theorem delFirstNP_no_match (nm pj : α → String) (n p : String) (l : List α)
    (hu : NPUnique nm pj l) :
    ∀ l2, delFirstNP nm pj n p l = some l2 → ∀ x ∈ l2, ¬ (nm x = n ∧ pj x = p) := by
  induction l with
  | nil => intro l2 h; exact absurd h (by simp [delFirstNP])
  | cons z zs ih =>
    intro l2 h y hy hym
    rcases List.pairwise_cons.mp hu with ⟨hz, hzs⟩
    unfold delFirstNP at h
    by_cases hm : nm z = n ∧ pj z = p
    · rw [if_pos hm] at h
      rw [← Option.some.inj h] at hy
      exact hz y hy ⟨hm.1.trans hym.1.symm, hm.2.trans hym.2.symm⟩
    · rw [if_neg hm] at h
      rcases Option.map_eq_some'.mp h with ⟨l', hl', rfl⟩
      rcases List.mem_cons.mp hy with hyz | hyl
      · exact hm (hyz ▸ hym)
      · exact ih hzs l' hl' y hyl hym

theorem applyEntity_inv (entity : FcoProto) (project : String) (r : RegistryProto)
    (hu : NPUnique (fun o : FcoProto => o.spec.name) (fun o => o.spec.project) r.entities) :
    NPUnique (fun o : FcoProto => o.spec.name) (fun o => o.spec.project)
      (applyEntity entity project r).entities := by
  unfold applyEntity
  cases hdel : delFirstNP (fun x : FcoProto => x.spec.name) (fun x => x.spec.project)
      (stampProject entity project).spec.name project r.entities with
  | some l2 =>
    simp only [hdel]
    apply NPUnique_append_single
    · exact List.Pairwise.sublist
        (delFirstNP_sublist _ _ _ _ r.entities l2 hdel) hu
    · intro x hx hk
      exact delFirstNP_no_match _ _ _ _ r.entities hu l2 hdel x hx
        ⟨hk.1, hk.2⟩
  | none =>
    simp only [hdel]
    apply NPUnique_append_single _ _ _ _ hu
    intro x hx hk
    exact ((delFirstNP_eq_none_iff _ _ _ _ r.entities).mp hdel) x hx ⟨hk.1, hk.2⟩

theorem pyDelMatches_sublist (p : α → Prop) [DecidablePred p] (l : List α) :
    List.Sublist (pyDelMatches p l) l := by
  induction l using pyDelMatches.induct p with
  | case1 => simp [pyDelMatches]
  | case2 x hx => simp [pyDelMatches, hx]
  | case3 x hx y ys ih =>
    unfold pyDelMatches
    rw [if_pos hx]
    exact List.Sublist.cons x (List.Sublist.cons₂ y ih)
  | case4 x xs hx ih =>
    unfold pyDelMatches
    rw [if_neg hx]
    exact List.Sublist.cons₂ x ih

theorem pyDelMatches_no_match (nm pj : α → String) (n p : String) (l : List α)
    (hu : NPUnique nm pj l) :
    ∀ x ∈ pyDelMatches (fun a => nm a = n ∧ pj a = p) l, ¬ (nm x = n ∧ pj x = p) := by
  induction l using pyDelMatches.induct (fun a => nm a = n ∧ pj a = p) with
  | case1 => intro x hx; exact absurd hx (List.not_mem_nil x)
  | case2 x hx =>
    intro y hy
    unfold pyDelMatches at hy
    rw [if_pos hx] at hy
    simp at hy
  | case3 x hx y ys ih =>
    intro z hz hzm
    rcases List.pairwise_cons.mp hu with ⟨hx1, hrest⟩
    rcases List.pairwise_cons.mp hrest with ⟨hy1, hys⟩
    unfold pyDelMatches at hz
    rw [if_pos hx] at hz
    have hz2 : z ∈ y :: pyDelMatches (fun a => nm a = n ∧ pj a = p) ys := hz
    rcases List.mem_cons.mp hz2 with hzy | hztl
    · exact hx1 z (hzy ▸ List.mem_cons_self y ys)
        ⟨hx.1.trans hzm.1.symm, hx.2.trans hzm.2.symm⟩
    · exact ih hys z hztl hzm
  | case4 x xs hx ih =>
    intro z hz hzm
    rcases List.pairwise_cons.mp hu with ⟨hx1, hxs⟩
    unfold pyDelMatches at hz
    rw [if_neg hx] at hz
    rcases List.mem_cons.mp hz with hzx | hztl
    · exact hx (hzx ▸ hzm)
    · exact ih hxs z hztl hzm

theorem applyFeatureService_inv (fs : FcoProto) (project : String) (r : RegistryProto)
    (hu : NPUnique (fun o : FcoProto => o.spec.name) (fun o => o.spec.project)
      r.feature_services) :
    NPUnique (fun o : FcoProto => o.spec.name) (fun o => o.spec.project)
      (applyFeatureService fs project r).feature_services := by
  unfold applyFeatureService
  apply NPUnique_append_single
  · exact List.Pairwise.sublist (pyDelMatches_sublist _ r.feature_services) hu
  · intro x hx hk
    exact pyDelMatches_no_match (fun o : FcoProto => o.spec.name) (fun o => o.spec.project)
      (stampProject fs project).spec.name project r.feature_services hu x hx ⟨hk.1, hk.2⟩

theorem applyFvToColl_mem (fvp : FVProto) (project : String) (l : List FVProto) :
    ∀ l2, applyFvToColl fvp project l = some l2 → ∀ y ∈ l2, y ∈ l ∨ y = fvp := by
  induction l with
  | nil =>
    intro l2 h y hy
    rw [applyFvToColl] at h
    rw [← Option.some.inj h] at hy
    exact Or.inr (List.mem_singleton.mp hy)
  | cons x xs ih =>
    intro l2 h y hy
    unfold applyFvToColl at h
    by_cases hm : x.spec.name = fvp.spec.name ∧ x.spec.project = project
    · rw [if_pos hm] at h
      by_cases hs : FVSemEq x fvp
      · rw [if_pos hs] at h; exact absurd h (by simp)
      · rw [if_neg hs] at h
        rw [← Option.some.inj h] at hy
        rcases List.mem_append.mp hy with hyxs | hyf
        · exact Or.inl (List.mem_cons_of_mem x hyxs)
        · exact Or.inr (List.mem_singleton.mp hyf)
    · rw [if_neg hm] at h
      rcases Option.map_eq_some'.mp h with ⟨l', hl', rfl⟩
      rcases List.mem_cons.mp hy with hyx | hyl
      · exact Or.inl (hyx ▸ List.mem_cons_self x xs)
      · rcases ih l' hl' y hyl with hin | heq
        · exact Or.inl (List.mem_cons_of_mem x hin)
        · exact Or.inr heq

theorem applyFvToColl_inv (fvp : FVProto) (project : String)
    (hp : fvp.spec.project = project) (l : List FVProto)
    (hu : NPUnique (fun o : FVProto => o.spec.name) (fun o => o.spec.project) l) :
    ∀ l2, applyFvToColl fvp project l = some l2 →
      NPUnique (fun o : FVProto => o.spec.name) (fun o => o.spec.project) l2 := by
  induction l with
  | nil =>
    intro l2 h
    rw [applyFvToColl] at h
    rw [← Option.some.inj h]
    exact List.pairwise_singleton _ _
  | cons x xs ih =>
    intro l2 h
    rcases List.pairwise_cons.mp hu with ⟨hx1, hxs⟩
    unfold applyFvToColl at h
    by_cases hm : x.spec.name = fvp.spec.name ∧ x.spec.project = project
    · rw [if_pos hm] at h
      by_cases hs : FVSemEq x fvp
      · rw [if_pos hs] at h; exact absurd h (by simp)
      · rw [if_neg hs] at h
        rw [← Option.some.inj h]
        apply NPUnique_append_single _ _ _ _ hxs
        intro y hy hk
        exact hx1 y hy
          ⟨hm.1.trans hk.1.symm, hm.2.trans (hp.symm.trans hk.2.symm)⟩
    · rw [if_neg hm] at h
      rcases Option.map_eq_some'.mp h with ⟨l', hl', rfl⟩
      rw [NPUnique, List.pairwise_cons]
      refine ⟨?_, ih hxs l' hl'⟩
      intro y hy hk
      rcases applyFvToColl_mem fvp project xs l' hl' y hy with hin | heq
      · exact hx1 y hin hk
      · rw [heq] at hk
        exact hm ⟨hk.1, hk.2.trans hp⟩

theorem applyMatToColl_inv (name project : String) (sd ed : Nat) (l : List FVProto)
    (hu : NPUnique (fun o : FVProto => o.spec.name) (fun o => o.spec.project) l) :
    ∀ l2, applyMatToColl name project sd ed l = some l2 →
      NPUnique (fun o : FVProto => o.spec.name) (fun o => o.spec.project) l2 := by
  intro l2 h
  have hne : ¬ ∀ x ∈ l, ¬ (x.spec.name = name ∧ x.spec.project = project) := by
    intro hall
    rw [(applyMatToColl_eq_none_iff name project sd ed l).mpr hall] at h
    exact Option.noConfusion h
  push_neg at hne
  obtain ⟨x0, hx0, hx0m⟩ := hne
  have hsome : (l.find? (fun z =>
      decide (z.spec.name = name ∧ z.spec.project = project))).isSome := by
    rw [List.find?_isSome]
    exact ⟨x0, hx0, decide_eq_true hx0m⟩
  obtain ⟨x, hx⟩ := Option.isSome_iff_exists.mp hsome
  have hcf := applyMatToColl_closed_form name project sd ed l hu x hx
  rw [hcf] at h
  rw [← Option.some.inj h]
  have hpx := List.find?_some hx
  have hxm : x.spec.name = name ∧ x.spec.project = project := of_decide_eq_true hpx
  exact NPUnique_filter_out_append _ _ name project l hu _ ⟨hxm.1, hxm.2⟩

theorem deleteEntity_state_inv (n p : String) (r : RegistryProto) (h : RegistryInv r) :
    RegistryInv (deleteEntity n p r).1 := by
  obtain ⟨he, hfv, hod, hrq, hfs⟩ := h
  unfold deleteEntity
  cases hdel : delFirstNP (fun x : FcoProto => x.spec.name) (fun x => x.spec.project)
      n p r.entities with
  | some l2 =>
    exact ⟨List.Pairwise.sublist (delFirstNP_sublist _ _ _ _ r.entities l2 hdel) he,
      hfv, hod, hrq, hfs⟩
  | none => exact ⟨he, hfv, hod, hrq, hfs⟩

theorem deleteFeatureService_state_inv (n p : String) (r : RegistryProto)
    (h : RegistryInv r) : RegistryInv (deleteFeatureService n p r).1 := by
  obtain ⟨he, hfv, hod, hrq, hfs⟩ := h
  unfold deleteFeatureService
  cases hdel : delFirstNP (fun x : FcoProto => x.spec.name) (fun x => x.spec.project)
      n p r.feature_services with
  | some l2 =>
    exact ⟨he, hfv, hod, hrq,
      List.Pairwise.sublist (delFirstNP_sublist _ _ _ _ r.feature_services l2 hdel) hfs⟩
  | none => exact ⟨he, hfv, hod, hrq, hfs⟩

theorem deleteFeatureView_state_inv (n p : String) (r : RegistryProto)
    (h : RegistryInv r) : RegistryInv (deleteFeatureView n p r).1 := by
  obtain ⟨he, hfv, hod, hrq, hfs⟩ := h
  unfold deleteFeatureView
  cases hdel1 : delFirstNP (fun x : FVProto => x.spec.name) (fun x => x.spec.project)
      n p r.feature_views with
  | some l2 =>
    exact ⟨he, List.Pairwise.sublist (delFirstNP_sublist _ _ _ _ r.feature_views l2 hdel1) hfv,
      hod, hrq, hfs⟩
  | none =>
    cases hdel2 : delFirstNP (fun x : FVProto => x.spec.name) (fun x => x.spec.project)
        n p r.request_feature_views with
    | some l2 =>
      exact ⟨he, hfv, hod,
        List.Pairwise.sublist (delFirstNP_sublist _ _ _ _ r.request_feature_views l2 hdel2) hrq,
        hfs⟩
    | none => exact ⟨he, hfv, hod, hrq, hfs⟩

theorem applyMaterialization_state_inv (n p : String) (sd ed : Nat) (r : RegistryProto)
    (h : RegistryInv r) : RegistryInv (applyMaterialization n p sd ed r).1 := by
  obtain ⟨he, hfv, hod, hrq, hfs⟩ := h
  unfold applyMaterialization
  cases hm : applyMatToColl n p sd ed r.feature_views with
  | some l2 =>
    exact ⟨he, applyMatToColl_inv n p sd ed r.feature_views hfv l2 hm, hod, hrq, hfs⟩
  | none => exact ⟨he, hfv, hod, hrq, hfs⟩

theorem applyFeatureView_state_inv (fv : FVObj) (p : String) (now : Nat)
    (r : RegistryProto) (h : RegistryInv r) :
    RegistryInv (applyFeatureView fv p now r).1 := by
  obtain ⟨he, hfv, hod, hrq, hfs⟩ := h
  unfold applyFeatureView
  by_cases hc : checkConflictingFeatureViewNames fv r = true
  · rw [if_pos hc]
    exact ⟨he, hfv, hod, hrq, hfs⟩
  · rw [if_neg hc]
    cases hvar : fv.variant with
    | regular =>
      simp only [getFvColl, setFvColl]
      cases hl : applyFvToColl (fvToProto fv p now) p r.feature_views with
      | none => exact ⟨he, hfv, hod, hrq, hfs⟩
      | some l2 =>
        exact ⟨he, applyFvToColl_inv _ p rfl r.feature_views hfv l2 hl, hod, hrq, hfs⟩
    | onDemand =>
      simp only [getFvColl, setFvColl]
      cases hl : applyFvToColl (fvToProto fv p now) p r.on_demand_feature_views with
      | none => exact ⟨he, hfv, hod, hrq, hfs⟩
      | some l2 =>
        exact ⟨he, hfv, applyFvToColl_inv _ p rfl r.on_demand_feature_views hod l2 hl,
          hrq, hfs⟩
    | request =>
      simp only [getFvColl, setFvColl]
      cases hl : applyFvToColl (fvToProto fv p now) p r.request_feature_views with
      | none => exact ⟨he, hfv, hod, hrq, hfs⟩
      | some l2 =>
        exact ⟨he, hfv, hod, applyFvToColl_inv _ p rfl r.request_feature_views hrq l2 hl,
          hfs⟩

theorem runOp_inv (r : RegistryProto) (op : RegOp) (h : RegistryInv r) :
    RegistryInv (runOp r op) := by
  cases op with
  | applyEntityOp e p =>
    obtain ⟨he, hfv, hod, hrq, hfs⟩ := h
    exact ⟨applyEntity_inv e p r he, hfv, hod, hrq, hfs⟩
  | applyFeatureServiceOp f p =>
    obtain ⟨he, hfv, hod, hrq, hfs⟩ := h
    exact ⟨he, hfv, hod, hrq, applyFeatureService_inv f p r hfs⟩
  | applyFeatureViewOp fv p now => exact applyFeatureView_state_inv fv p now r h
  | applyMaterializationOp n p sd ed => exact applyMaterialization_state_inv n p sd ed r h
  | deleteEntityOp n p => exact deleteEntity_state_inv n p r h
  | deleteFeatureViewOp n p => exact deleteFeatureView_state_inv n p r h
  | deleteFeatureServiceOp n p => exact deleteFeatureService_state_inv n p r h

/-- C8: the per-collection (name, project) uniqueness invariant holds in every
snapshot reachable by any sequence of apply, delete and applyMaterialization
operations from a snapshot satisfying it. -/
theorem registry_inv_preserved (ops : List RegOp) (r : RegistryProto)
    (h : RegistryInv r) : RegistryInv (runOps ops r) := by
  induction ops generalizing r with
  | nil => exact h
  | cons op ops ih => exact ih (runOp r op) (runOp_inv r op h)

/-- A closed instance of `registry_inv_preserved`: a short operation sequence
from the empty snapshot (including a re-apply of the same entity) keeps the
invariant. -/
theorem registry_inv_preserved_witness :
    RegistryInv emptyRegistryProto ∧
    RegistryInv (runOps
      [RegOp.applyEntityOp ⟨⟨"e1", "", []⟩⟩ "p",
       RegOp.applyFeatureViewOp ⟨⟨"fv1", "", []⟩, none, [], .regular⟩ "p" 0,
       RegOp.applyEntityOp ⟨⟨"e1", "", []⟩⟩ "p",
       RegOp.applyMaterializationOp "fv1" "p" 0 1 ] emptyRegistryProto) :=
  ⟨by decide, registry_inv_preserved _ emptyRegistryProto (by decide)⟩

theorem fieldsDiff_self (l : List (String × String)) : fieldsDiff l l = [] := by
  induction l with
  | nil => rfl
  | cons f fs ih =>
    unfold fieldsDiff
    rw [if_pos rfl]
    simpa using ih

theorem specFieldDiffs_self (a : FcoSpec) : specFieldDiffs a a = [] := by
  unfold specFieldDiffs
  rw [if_pos rfl, if_pos rfl, fieldsDiff_self]
  rfl

theorem diffBetweenPair_self (a : FcoSpec) (t : String) : diffBetweenPair a a t = none := by
  unfold diffBetweenPair
  rw [specFieldDiffs_self]
  rfl

theorem firstWithName_self (l : List FcoSpec)
    (hnd : (l.map (fun o => o.name)).Nodup) :
    ∀ o ∈ l, firstWithName l o.name = some o := by
  induction l with
  | nil => intro o ho; exact absurd ho (List.not_mem_nil o)
  | cons x xs ih =>
    intro o ho
    rw [List.map_cons, List.nodup_cons] at hnd
    rcases List.mem_cons.mp ho with rfl | hoxs
    · unfold firstWithName
      rw [List.find?_cons_of_pos _ (by simp)]
    · have hne : x.name ≠ o.name := by
        intro hEq
        exact hnd.1 (hEq ▸ List.mem_map_of_mem (fun o => o.name) hoxs)
      unfold firstWithName
      rw [List.find?_cons_of_neg _ (by simp [hne])]
      exact ih hnd.2 o hoxs

theorem diffKind_self (t : String) (l : List FcoSpec)
    (hnd : (l.map (fun o => o.name)).Nodup) : diffKind t l l = [] := by
  have hmemnames : ∀ o ∈ l, o.name ∈ l.map (fun o => o.name) :=
    fun o ho => List.mem_map_of_mem _ ho
  have hnone : l.filter (fun o => decide (o.name ∉ l.map (fun o => o.name))) = [] := by
    rw [List.filter_eq_nil_iff]
    intro o ho
    simp [hmemnames o ho]
  have hkeep : l.filter (fun o => decide (o.name ∈ l.map (fun o => o.name))) = l := by
    rw [List.filter_eq_self]
    intro o ho
    simp [hmemnames o ho]
  unfold diffKind tagProtoObjectsForKeepDeleteAdd
  simp only [hnone, hkeep, List.map_nil, List.nil_append, List.append_nil]
  rw [List.filterMap_eq_nil_iff]
  intro o ho
  rw [firstWithName_self l hnd o ho]
  exact diffBetweenPair_self o t

/-- C3 amended: `diff(S, S)` is the empty Change Set for every snapshot in which
no collection holds two entries sharing a name. Matching of kept objects is by
name only (`[_e for _e in current if _e.spec.name == e.spec.name][0]`), so for a
snapshot whose collections are name-unique each kept object is compared against
itself and excluded; with a duplicated name (allowed under two different
projects) the comparison pairs two different objects and emits a spurious UPDATE
record. -/
theorem diff_self_empty (r : RegistryProto)
    (h1 : ((r.entities.map (fun o => o.spec)).map (fun o => o.name)).Nodup)
    (h2 : ((r.feature_views.map (fun o => o.spec)).map (fun o => o.name)).Nodup)
    (h3 : ((r.feature_tables.map (fun o => o.spec)).map (fun o => o.name)).Nodup)
    (h4 : ((r.on_demand_feature_views.map (fun o => o.spec)).map (fun o => o.name)).Nodup)
    (h5 : ((r.request_feature_views.map (fun o => o.spec)).map (fun o => o.name)).Nodup)
    (h6 : ((r.feature_services.map (fun o => o.spec)).map (fun o => o.name)).Nodup) :
    diffBetween r r = [] := by
  unfold diffBetween
  rw [diffKind_self _ _ h1, diffKind_self _ _ h2, diffKind_self _ _ h3,
    diffKind_self _ _ h4, diffKind_self _ _ h5, diffKind_self _ _ h6]
  rfl

/-- C3 as stated is false: `dupNameReg` satisfies the per-collection
(name, project) uniqueness invariant, but `diff(dupNameReg, dupNameReg)` is not
empty — the entity ("n", "p2") is matched by name against ("n", "p1") and an
UPDATE record on the project field is emitted. -/
theorem diff_self_counterexample :
    RegistryInv dupNameReg ∧ diffBetween dupNameReg dupNameReg ≠ [] := by decide

/-- A closed instance of `diff_self_empty` on a name-unique snapshot. -/
theorem diff_self_empty_witness : diffBetween matReg matReg = [] :=
  diff_self_empty matReg (by decide) (by decide) (by decide) (by decide) (by decide)
    (by decide)

theorem sortByName_perm (nm : α → String) (l : List α) :
    (sortByName nm l).Perm l :=
  List.perm_insertionSort _ l

theorem sortByName_sorted (nm : α → String) (l : List α) :
    (sortByName nm l).Pairwise (fun a b => nm a ≤ nm b) := by
  have ht : IsTotal α (fun a b => nm a ≤ nm b) := ⟨fun a b => le_total _ _⟩
  have htr : IsTrans α (fun a b => nm a ≤ nm b) := ⟨fun a b c hab hbc => le_trans hab hbc⟩
  exact List.sorted_insertionSort _ l

/-- C9: for each of the five externally visible kinds, `to_dict` outputs exactly
the entries whose project matches (a permutation of the project filter of the
collection), sorted by object name; and projecting twice from an unchanged
snapshot yields identical output. -/
theorem to_dict_spec (r : RegistryProto) (project : String) :
    ((toDict r project).entities.Perm
        (r.entities.filter (fun o => decide (o.spec.project = project))) ∧
      (toDict r project).entities.Pairwise (fun a b => a.spec.name ≤ b.spec.name)) ∧
    ((toDict r project).featureViews.Perm
        (r.feature_views.filter (fun o => decide (o.spec.project = project))) ∧
      (toDict r project).featureViews.Pairwise (fun a b => a.spec.name ≤ b.spec.name)) ∧
    ((toDict r project).featureServices.Perm
        (r.feature_services.filter (fun o => decide (o.spec.project = project))) ∧
      (toDict r project).featureServices.Pairwise (fun a b => a.spec.name ≤ b.spec.name)) ∧
    ((toDict r project).onDemandFeatureViews.Perm
        (r.on_demand_feature_views.filter (fun o => decide (o.spec.project = project))) ∧
      (toDict r project).onDemandFeatureViews.Pairwise
        (fun a b => a.spec.name ≤ b.spec.name)) ∧
    ((toDict r project).requestFeatureViews.Perm
        (r.request_feature_views.filter (fun o => decide (o.spec.project = project))) ∧
      (toDict r project).requestFeatureViews.Pairwise
        (fun a b => a.spec.name ≤ b.spec.name)) ∧
    toDict r project = toDict r project := by
  refine ⟨⟨?_, ?_⟩, ⟨?_, ?_⟩, ⟨?_, ?_⟩, ⟨?_, ?_⟩, ⟨?_, ?_⟩, rfl⟩
  all_goals first
    | exact sortByName_perm (fun o : FcoProto => o.spec.name) _
    | exact sortByName_perm (fun o : FVProto => o.spec.name) _
    | exact sortByName_sorted (fun o : FcoProto => o.spec.name) _
    | exact sortByName_sorted (fun o : FVProto => o.spec.name) _

end Feast
